import Mathlib

/-!
Verification of the resilient paginated extraction client in
`get_first_deal.py` (class `Bitrix24DealExtractor`).

The embedding below translates the request/retry layer
(`make_request_with_retry`), the two pagination loops (`get_all_deals`,
`get_deal_dialogues`) and the message-cleaning step of `print_dialogues`
into executable Lean definitions.  The HTTP layer is abstracted as an
oracle giving, for each physical attempt (resp. each paginated request),
the outcome the Python `requests` call would produce.
-/

namespace Dialogs

/-- Shallow model of the JSON values the Bitrix24 API returns
(Python dicts, lists, strings, ints, bools, None). -/
inductive Json where
  | null : Json
  | bool (b : Bool) : Json
  | num (n : Int) : Json
  | str (s : String) : Json
  | arr (xs : List Json) : Json
  | obj (fields : List (String × Json)) : Json

/-- Python `dict.get(k)`: first binding of key `k`, `None` (here `none`)
when the key is absent. -/
def pyGet {α : Type} (d : List (String × α)) (k : String) : Option α :=
  match d with
  | [] => none
  | (k', v) :: rest => if k' = k then some v else pyGet rest k

/-- The `api_stats` counters of `Bitrix24DealExtractor`
(`start_time` is omitted: it only feeds logging). -/
structure Stats where
  totalRequests : Nat
  successfulRequests : Nat
  failedRequests : Nat
  retryAttempts : Nat
deriving DecidableEq, Repr

/-- Outcome of one physical HTTP attempt, as observed by the `try` block of
`make_request_with_retry`:
* `ok body` — 2xx response whose JSON body parsed to the object `body`;
* `httpError s` — `response.raise_for_status()` raised `HTTPError`
  with status code `s`;
* `connError` — `ConnectionError` / `Timeout` / `RequestException`;
* `otherError` — any other exception during the attempt. -/
inductive AttemptOutcome where
  | ok (body : List (String × Json)) : AttemptOutcome
  | httpError (status : Nat) : AttemptOutcome
  | connError : AttemptOutcome
  | otherError : AttemptOutcome

/-- A delay applied before a physical attempt:
`rateLimit` stands for `self.rate_limit_delay` seconds;
`backoff n` stands for `(2 ** n) + random.uniform(0, 1)` seconds. -/
inductive Delay where
  | rateLimit : Delay
  | backoff (attempt : Nat) : Delay
deriving DecidableEq, Repr

/-- Result of one logical call to `make_request_with_retry`: the returned
value, the updated counters, and the trace of delays — one entry
`(attempt, d)` per physical attempt, where `d` is the delay slept before
that attempt's HTTP call (`none` when the delay block was skipped). -/
structure RunResult where
  value : Json
  stats : Stats
  delays : List (Nat × Option Delay)

/-- The delay chosen for a physical attempt (lines 90–101 of
`get_first_deal.py`): `totalAfterInc` is `api_stats['total_requests']`
after the increment at the top of the loop body. -/
def attemptDelay (attempt totalAfterInc : Nat) : Option Delay :=
  if attempt > 0 then some (.backoff attempt)
  else if totalAfterInc > 1 then some .rateLimit
  else none

/-- The `status_code` the `HTTPError` handler observes (line 132):
`e.response.status_code if e.response else 0`.  A `requests.Response` is
truthy iff `ok`, i.e. iff its status is < 400, and `raise_for_status`
raises only for status ≥ 400 — so the handler observes 0 for every error
it catches, and the 5xx retry test of line 135 can never succeed. -/
def observedStatus (status : Nat) : Nat := if status < 400 then status else 0

/-- One iteration of the `for attempt in range(max_retries + 1)` loop of
`make_request_with_retry`, recursing on the number of remaining
iterations (`fuel`).  The `fuel = 0` case is the loop running out of
iterations; it is unreachable from `makeRequestWithRetry` because every
`continue` is guarded by `attempt < max_retries`. -/
def goRetry (oracle : Nat → AttemptOutcome) (maxRetries : Nat) :
    Nat → Nat → Stats → List (Nat × Option Delay) → RunResult
  | 0, _, stats, delays =>
      { value := .obj [],
        stats := { stats with failedRequests := stats.failedRequests + 1 },
        delays := delays }
  | fuel + 1, attempt, stats, delays =>
      let s1 : Stats := { stats with totalRequests := stats.totalRequests + 1 }
      let d := attemptDelay attempt s1.totalRequests
      let s2 : Stats :=
        { s1 with retryAttempts := s1.retryAttempts + if attempt > 0 then 1 else 0 }
      let delays' := delays ++ [(attempt, d)]
      match oracle attempt with
      | .ok body =>
          if (pyGet body "error").isSome then
            { value := .obj [],
              stats := { s2 with failedRequests := s2.failedRequests + 1 },
              delays := delays' }
          else
            { value := (pyGet body "result").getD (.obj body),
              stats := { s2 with successfulRequests := s2.successfulRequests + 1 },
              delays := delays' }
      | .httpError status =>
          if (observedStatus status = 500 ∨ observedStatus status = 502 ∨
              observedStatus status = 503 ∨ observedStatus status = 504) ∧
              attempt < maxRetries then
            goRetry oracle maxRetries fuel (attempt + 1) s2 delays'
          else
            { value := .obj [],
              stats := { s2 with failedRequests := s2.failedRequests + 1 },
              delays := delays' }
      | .connError =>
          if attempt < maxRetries then
            goRetry oracle maxRetries fuel (attempt + 1) s2 delays'
          else
            { value := .obj [],
              stats := { s2 with failedRequests := s2.failedRequests + 1 },
              delays := delays' }
      | .otherError =>
          { value := .obj [],
            stats := { s2 with failedRequests := s2.failedRequests + 1 },
            delays := delays' }

/-- `Bitrix24DealExtractor.make_request_with_retry` (lines 67–164), with
the HTTP layer abstracted as `oracle : Nat → AttemptOutcome` giving the
outcome of each physical attempt of this logical call.  `stats` is the
state of `self.api_stats` on entry (its `totalRequests` counts the
requests of earlier logical calls of the same session). -/
def makeRequestWithRetry (oracle : Nat → AttemptOutcome) (maxRetries : Nat)
    (stats : Stats) : RunResult :=
  goRetry oracle maxRetries (maxRetries + 1) 0 stats []

/-! ### Pagination: `get_all_deals` -/

/-- Result of a pagination loop: the accumulated records, the number of
physical requests issued from the modelled point on, and whether the loop
exited through one of its own `break`/termination conditions (`finished =
false` means the recursion fuel ran out with the loop still going). -/
structure PageResult where
  records : List Json
  requests : Nat
  finished : Bool

/-- The `while True` loop of `Bitrix24DealExtractor.get_all_deals`
(lines 187–205).  `oracle i` is the value `make_request` returns for the
`i`-th request of this extraction (`get_all_deals` never inspects the
elements of a batch, only its length, so batches stay `List Json`).
Each iteration consumes one unit of `fuel`; the source loop has no
iteration bound of its own. -/
def goAllDeals (oracle : Nat → Json) : Nat → Nat → PageResult
  | 0, _ => { records := [], requests := 0, finished := false }
  | fuel + 1, reqIdx =>
      match oracle reqIdx with
      | .arr batch =>
          if batch.isEmpty then { records := [], requests := 1, finished := true }
          else if batch.length < 50 then
            { records := batch, requests := 1, finished := true }
          else
            let r := goAllDeals oracle fuel (reqIdx + 1)
            { records := batch ++ r.records, requests := r.requests + 1,
              finished := r.finished }
      | _ => { records := [], requests := 1, finished := true }

/-- `Bitrix24DealExtractor.get_all_deals` (lines 180–205): `start` is
advanced by the batch length at each step, which makes successive
requests distinct, so the responses are abstracted as `oracle : Nat →
Json` indexed by request number. -/
def getAllDeals (oracle : Nat → Json) (fuel : Nat) : PageResult :=
  goAllDeals oracle fuel 0

/-! ### Pagination: `get_deal_dialogues` -/

/-- Scalar JSON values.  Record fields in the dialogue pages are modelled
as scalars: the dedup set `seen_ids` requires hashable `'ID'` values in
Python (an unhashable `ID` raises `TypeError` at `seen_ids.add`), and
`get_deal_dialogues` inspects no other field. -/
inductive Scalar where
  | null : Scalar
  | bool (b : Bool) : Scalar
  | num (n : Int) : Scalar
  | str (s : String) : Scalar
deriving DecidableEq, Repr

/-- Python truthiness of a scalar (`if msg_id:`). -/
def Scalar.truthy : Scalar → Bool
  | .null => false
  | .bool b => b
  | .num n => n != 0
  | .str s => s != ""

/-- A record (Python dict) of a dialogue page. -/
abbrev Rec := List (String × Scalar)

/-- The per-page dedup pass of `get_deal_dialogues` (lines 345–350):
returns the retained new messages, in order, together with the updated
`seen_ids` set (modelled as the list of identifiers added so far). -/
def dedupBatch : List Rec → List Scalar → List Rec × List Scalar
  | [], seen => ([], seen)
  | msg :: rest, seen =>
      match pyGet msg "ID" with
      | some v =>
          if v.truthy ∧ v ∉ seen then
            let r := dedupBatch rest (v :: seen)
            (msg :: r.1, r.2)
          else dedupBatch rest seen
      | none => dedupBatch rest seen

/-- Result of the `get_deal_dialogues` loop (same reading of the fields
as `PageResult`, with dialogue records). -/
structure DialogResult where
  records : List Rec
  requests : Nat
  finished : Bool

/-- The `while True` loop of `Bitrix24DealExtractor.get_deal_dialogues`
(lines 334–363).  `oracle i = some batch` is the `i`-th response being a
list of records; `none` is `make_request` returning anything that is not
a list (e.g. the empty dict on failure).  `pageCount` and `seen` are the
loop state `page_count` / `seen_ids`; one unit of `fuel` per iteration. -/
def goDialogues (oracle : Nat → Option (List Rec)) :
    Nat → Nat → Nat → List Scalar → DialogResult
  | 0, _, _, _ => { records := [], requests := 0, finished := false }
  | fuel + 1, reqIdx, pageCount, seen =>
      match oracle reqIdx with
      | none => { records := [], requests := 1, finished := true }
      | some batch =>
          if batch.isEmpty then { records := [], requests := 1, finished := true }
          else
            let nm := dedupBatch batch seen
            if nm.1.isEmpty then { records := [], requests := 1, finished := true }
            else if pageCount + 1 > 100 then
              { records := nm.1, requests := 1, finished := true }
            else
              let r := goDialogues oracle fuel (reqIdx + 1) (pageCount + 1) nm.2
              { records := nm.1 ++ r.records, requests := r.requests + 1,
                finished := r.finished }

/-- `Bitrix24DealExtractor.get_deal_dialogues` (lines 319–366), responses
abstracted as `oracle : Nat → Option (List Rec)` indexed by request
number (`start` strictly increases across iterations, so successive
requests are distinct). -/
def getDealDialogues (oracle : Nat → Option (List Rec)) (fuel : Nat) :
    DialogResult :=
  goDialogues oracle fuel 0 0 []

/-! ### Message cleaning (`print_dialogues`, lines 394–403)

Texts are modelled as `List Char`.  `hasSub pat cs` is Python's
`pat in cs`; `removeNbsp` is `text.replace('&nbsp;', '')`;
`stripImg` is `re.sub(r'\[img\].*?\[\/img\]', '', text)` (lazy match, `.`
not matching a newline, scanned left to right); `pyStrip` is
`text.strip()`. -/

/-- Python's substring test `pat in s`. -/
def hasSub (pat : List Char) : List Char → Bool
  | [] => pat.isEmpty
  | c :: rest => pat.isPrefixOf (c :: rest) || hasSub pat rest

/-- The literal `'&nbsp;'`. -/
def nbspTag : List Char := ['&', 'n', 'b', 's', 'p', ';']

/-- The literal `'[url='`. -/
def urlTag : List Char := ['[', 'u', 'r', 'l', '=']

/-- The literal `'=== SYSTEM WZ ==='`. -/
def sysTag : List Char :=
  ['=', '=', '=', ' ', 'S', 'Y', 'S', 'T', 'E', 'M', ' ', 'W', 'Z', ' ', '=', '=', '=']

/-- The literal `'[img]'`. -/
def imgOpen : List Char := ['[', 'i', 'm', 'g', ']']

/-- The literal `'[/img]'`. -/
def imgClose : List Char := ['[', '/', 'i', 'm', 'g', ']']

/-- `text.replace('&nbsp;', '')`: single left-to-right pass, each
occurrence removed, scanning resumes after the removed occurrence.
Structured with fuel so that the function is structurally recursive; a
removed occurrence consumes 6 characters, so `fuel = cs.length` (as used
by `removeNbsp`) never runs out. -/
def removeNbspAux : Nat → List Char → List Char
  | 0, cs => cs
  | _ + 1, [] => []
  | fuel + 1, c :: rest =>
      if nbspTag.isPrefixOf (c :: rest) then removeNbspAux fuel (rest.drop 5)
      else c :: removeNbspAux fuel rest

/-- `text.replace('&nbsp;', '')`. -/
def removeNbsp (cs : List Char) : List Char := removeNbspAux cs.length cs

/-- The lazy part `.*?\[\/img\]` of the image-tag regex: starting right
after an `[img]`, succeed at the closest following `[/img]` and return
the text after it; fail at end of input or at a newline (`.` does not
match `'\n'` without `re.DOTALL`). -/
def findImgClose : List Char → Option (List Char)
  | [] => none
  | c :: rest =>
      if imgClose.isPrefixOf (c :: rest) then some (rest.drop 5)
      else if c = '\n' then none
      else findImgClose rest

/-- One attempted match of `\[img\].*?\[\/img\]` anchored at the start of
`cs`; on success, the text after the match. -/
def matchImgAt (cs : List Char) : Option (List Char) :=
  if imgOpen.isPrefixOf cs then findImgClose (cs.drop 5) else none

/-- `re.sub(r'\[img\].*?\[\/img\]', '', text)`: scan left to right,
deleting each leftmost lazy match.  Structured with fuel so that the
function is structurally recursive; a successful match consumes at least
11 characters, so `fuel = cs.length` (as used by `stripImg`) never runs
out. -/
def stripImgAux : Nat → List Char → List Char
  | 0, cs => cs
  | _ + 1, [] => []
  | fuel + 1, c :: rest =>
      match matchImgAt (c :: rest) with
      | some rem => stripImgAux fuel rem
      | none => c :: stripImgAux fuel rest

/-- `re.sub(r'\[img\].*?\[\/img\]', '', text)`. -/
def stripImg (cs : List Char) : List Char := stripImgAux cs.length cs

/-- Python's default `str.strip()` whitespace set. -/
def isPySpace (c : Char) : Bool :=
  c = ' ' || c = '\t' || c = '\n' || c = '\r' || c = '\x0b' || c = '\x0c'

/-- `text.strip()`. -/
def pyStrip (cs : List Char) : List Char :=
  ((cs.dropWhile isPySpace).reverse.dropWhile isPySpace).reverse

/-- The per-message text handling of `print_dialogues` (lines 394–403):
a message whose text contains `'[url='` or `'=== SYSTEM WZ ==='` is
skipped entirely (`none`); otherwise `'&nbsp;'` occurrences and
`[img]…[/img]` spans are removed and the text is surfaced stripped of
surrounding whitespace. -/
def cleanMessage (text : List Char) : Option (List Char) :=
  if hasSub urlTag text || hasSub sysTag text then none
  else some (pyStrip (stripImg (removeNbsp text)))

/-! ## Helper lemmas: the retry layer -/

/-- Each loop iteration performs exactly one physical request, so the
total-request counter grows by at most the remaining iteration budget. -/
theorem goRetry_total_le (oracle : Nat → AttemptOutcome) (mr : Nat) :
    ∀ (fuel attempt : Nat) (st : Stats) (ds : List (Nat × Option Delay)),
      (goRetry oracle mr fuel attempt st ds).stats.totalRequests ≤
        st.totalRequests + fuel := by
  intro fuel
  induction fuel with
  | zero => intro attempt st ds; simp [goRetry]
  | succ n ih =>
    intro attempt st ds
    simp only [goRetry]
    cases oracle attempt with
    | ok body =>
      by_cases he : (pyGet body "error").isSome = true
      · simp [he]
      · simp [he]
    | httpError status =>
      by_cases hc : (observedStatus status = 500 ∨ observedStatus status = 502 ∨ observedStatus status = 503 ∨ observedStatus status = 504) ∧ attempt < mr
      · simp only [if_pos hc]
        exact le_trans (ih (attempt + 1) _ _) (by simp; omega)
      · simp [hc]
    | connError =>
      by_cases hc : attempt < mr
      · simp only [if_pos hc]
        exact le_trans (ih (attempt + 1) _ _) (by simp; omega)
      · simp [hc]
    | otherError => simp

/-- The value returned by the retry loop is the empty dict unless some
attempt in the remaining budget succeeded with an error-free body, in
which case it is that body's `result` projection. -/
theorem goRetry_value_shape (oracle : Nat → AttemptOutcome) (mr : Nat) :
    ∀ (fuel attempt : Nat) (st : Stats) (ds : List (Nat × Option Delay)),
      (goRetry oracle mr fuel attempt st ds).value = .obj [] ∨
      ∃ (i : Nat) (body : List (String × Json)), attempt ≤ i ∧ i < attempt + fuel ∧
        oracle i = .ok body ∧ pyGet body "error" = none ∧
        (goRetry oracle mr fuel attempt st ds).value =
          (pyGet body "result").getD (.obj body) := by
  intro fuel
  induction fuel with
  | zero => intro attempt st ds; left; simp [goRetry]
  | succ n ih =>
    intro attempt st ds
    simp only [goRetry]
    cases h : oracle attempt with
    | ok body =>
      by_cases he : (pyGet body "error").isSome = true
      · left; simp [he]
      · right
        refine ⟨attempt, body, le_refl _, by omega, h, ?_, by simp [he]⟩
        exact Option.not_isSome_iff_eq_none.mp (by simp [he])
    | httpError status =>
      by_cases hc : (observedStatus status = 500 ∨ observedStatus status = 502 ∨ observedStatus status = 503 ∨ observedStatus status = 504) ∧ attempt < mr
      · simp only [if_pos hc]
        rcases ih (attempt + 1) _ (ds ++ [(attempt, attemptDelay attempt (st.totalRequests + 1))]) with h' | ⟨i, body, h1, h2, h3, h4, h5⟩
        · left; exact h'
        · right; exact ⟨i, body, by omega, by omega, h3, h4, h5⟩
      · left; simp [hc]
    | connError =>
      by_cases hc : attempt < mr
      · simp only [if_pos hc]
        rcases ih (attempt + 1) _ (ds ++ [(attempt, attemptDelay attempt (st.totalRequests + 1))]) with h' | ⟨i, body, h1, h2, h3, h4, h5⟩
        · left; exact h'
        · right; exact ⟨i, body, by omega, by omega, h3, h4, h5⟩
      · left; simp [hc]
    | otherError => left; simp

/-- Specification of one entry `p` of the delay trace when the session
counter was `T` at the start of the logical call: no delay exactly on the
very first request of the session, the rate-limit delay on a non-retry
attempt, exponential backoff with jitter on retry attempt `p.1 ≥ 1`. -/
def DelaySpec (T : Nat) (p : Nat × Option Delay) : Prop :=
  (p.2 = none ↔ p.1 = 0 ∧ T = 0) ∧
  (0 < p.1 → p.2 = some (.backoff p.1)) ∧
  (p.1 = 0 → 0 < T → p.2 = some .rateLimit)

/-- Every entry the retry loop appends to the delay trace satisfies
`DelaySpec` for the session counter `T` on entry of the logical call. -/
theorem goRetry_delay_spec (oracle : Nat → AttemptOutcome) (mr T : Nat) :
    ∀ (fuel attempt : Nat) (st : Stats) (ds : List (Nat × Option Delay)),
      st.totalRequests = T + attempt → (∀ p ∈ ds, DelaySpec T p) →
      ∀ p ∈ (goRetry oracle mr fuel attempt st ds).delays, DelaySpec T p := by
  have hnew : ∀ (attempt : Nat), DelaySpec T (attempt, attemptDelay attempt (T + attempt + 1)) := by
    intro attempt
    rcases Nat.eq_zero_or_pos attempt with ha | ha
    · subst ha
      rcases Nat.eq_zero_or_pos T with hT | hT
      · subst hT; refine ⟨by simp [attemptDelay], by simp, by simp⟩
      · refine ⟨?_, by simp, ?_⟩ <;> simp [attemptDelay, hT, Nat.pos_iff_ne_zero.mp hT]
    · refine ⟨?_, ?_, ?_⟩ <;> simp [attemptDelay, ha, Nat.pos_iff_ne_zero.mp ha]
  intro fuel
  induction fuel with
  | zero => intro attempt st ds hst hds; simpa [goRetry] using hds
  | succ n ih =>
    intro attempt st ds hst hds
    have hds' : ∀ p ∈ ds ++ [(attempt, attemptDelay attempt (st.totalRequests + 1))],
        DelaySpec T p := by
      intro p hp
      rcases List.mem_append.mp hp with h | h
      · exact hds p h
      · rcases List.mem_singleton.mp h with rfl
        rw [hst]
        exact hnew attempt
    simp only [goRetry]
    cases oracle attempt with
    | ok body =>
      by_cases he : (pyGet body "error").isSome = true
      · simpa [he] using hds'
      · simpa [he] using hds'
    | httpError status =>
      by_cases hc : (observedStatus status = 500 ∨ observedStatus status = 502 ∨ observedStatus status = 503 ∨ observedStatus status = 504) ∧ attempt < mr
      · simp only [if_pos hc]
        exact ih (attempt + 1) _ _ (by simp [hst]; omega) hds'
      · simpa [hc] using hds'
    | connError =>
      by_cases hc : attempt < mr
      · simp only [if_pos hc]
        exact ih (attempt + 1) _ _ (by simp [hst]; omega) hds'
      · simpa [hc] using hds'
    | otherError => simpa using hds'

/-- The delay trace has exactly one entry per physical request. -/
theorem goRetry_total_delays (oracle : Nat → AttemptOutcome) (mr : Nat) :
    ∀ (fuel attempt : Nat) (st : Stats) (ds : List (Nat × Option Delay)),
      (goRetry oracle mr fuel attempt st ds).stats.totalRequests + ds.length =
        st.totalRequests + (goRetry oracle mr fuel attempt st ds).delays.length := by
  intro fuel
  induction fuel with
  | zero => intro attempt st ds; simp [goRetry]
  | succ n ih =>
    intro attempt st ds
    simp only [goRetry]
    cases oracle attempt with
    | ok body =>
      by_cases he : (pyGet body "error").isSome = true
      · simp [he]; omega
      · simp [he]; omega
    | httpError status =>
      by_cases hc : (observedStatus status = 500 ∨ observedStatus status = 502 ∨ observedStatus status = 503 ∨ observedStatus status = 504) ∧ attempt < mr
      · simp only [if_pos hc]
        have := ih (attempt + 1)
          { st with totalRequests := st.totalRequests + 1,
                    retryAttempts := st.retryAttempts + if attempt > 0 then 1 else 0 }
          (ds ++ [(attempt, attemptDelay attempt (st.totalRequests + 1))])
        simp at this ⊢
        omega
      · simp [hc]; omega
    | connError =>
      by_cases hc : attempt < mr
      · simp only [if_pos hc]
        have := ih (attempt + 1)
          { st with totalRequests := st.totalRequests + 1,
                    retryAttempts := st.retryAttempts + if attempt > 0 then 1 else 0 }
          (ds ++ [(attempt, attemptDelay attempt (st.totalRequests + 1))])
        simp at this ⊢
        omega
      · simp [hc]; omega
    | otherError => simp; omega

/-- The retry counter grows by exactly the number of trace entries whose
attempt index is positive (one increment per retry delay). -/
theorem goRetry_retry_count (oracle : Nat → AttemptOutcome) (mr : Nat) :
    ∀ (fuel attempt : Nat) (st : Stats) (ds : List (Nat × Option Delay)),
      (goRetry oracle mr fuel attempt st ds).stats.retryAttempts +
          (ds.filter fun p => 0 < p.1).length =
        st.retryAttempts +
          ((goRetry oracle mr fuel attempt st ds).delays.filter fun p => 0 < p.1).length := by
  have hone : ∀ (x : Nat × Option Delay),
      (List.filter (fun p => decide (0 < p.1)) [x]).length = if 0 < x.1 then 1 else 0 := by
    intro x
    by_cases hx : 0 < x.1 <;> simp [hx]
  intro fuel
  induction fuel with
  | zero => intro attempt st ds; simp [goRetry]
  | succ n ih =>
    intro attempt st ds
    simp only [goRetry]
    cases oracle attempt with
    | ok body =>
      by_cases he : (pyGet body "error").isSome = true
      · simp [he, hone]; omega
      · simp [he, hone]; omega
    | httpError status =>
      by_cases hc : (observedStatus status = 500 ∨ observedStatus status = 502 ∨ observedStatus status = 503 ∨ observedStatus status = 504) ∧ attempt < mr
      · simp only [if_pos hc]
        have := ih (attempt + 1)
          { st with totalRequests := st.totalRequests + 1,
                    retryAttempts := st.retryAttempts + if attempt > 0 then 1 else 0 }
          (ds ++ [(attempt, attemptDelay attempt (st.totalRequests + 1))])
        simp [hone] at this ⊢
        omega
      · simp [hc, hone]; omega
    | connError =>
      by_cases hc : attempt < mr
      · simp only [if_pos hc]
        have := ih (attempt + 1)
          { st with totalRequests := st.totalRequests + 1,
                    retryAttempts := st.retryAttempts + if attempt > 0 then 1 else 0 }
          (ds ++ [(attempt, attemptDelay attempt (st.totalRequests + 1))])
        simp [hone] at this ⊢
        omega
      · simp [hc, hone]; omega
    | otherError => simp [hone]; omega

/-! ## Claims on the retry layer -/

/-- An oracle on which every physical attempt fails with HTTP 503. -/
def oracle503 : Nat → AttemptOutcome := fun _ => .httpError 503

/-- An oracle on which every physical attempt fails with a connection
error (the one failure kind the code does retry). -/
def oracleConnErr : Nat → AttemptOutcome := fun _ => .connError

/-- An oracle on which every attempt succeeds with the body `{"x": 1}`
(no `error` and no `result` key). -/
def oracleBareBody : Nat → AttemptOutcome := fun _ => .ok [("x", .num 1)]

/-- An oracle on which every attempt succeeds with the empty body. -/
def oracleOkEmpty : Nat → AttemptOutcome := fun _ => .ok []

/-- C1 (code bug): with every physical attempt failing as HTTP 503 and
`max_retries = 2`, the program performs exactly ONE physical attempt
(`total_requests` grows by 1), increments `retry_attempts` by 0, counts
one failed request, and returns the empty dict.  The handler's
`e.response.status_code if e.response else 0` observes 0 — a `Response`
with status ≥ 400 is falsy — so HTTP errors are never retried and the
claimed (and intended, lines 134–140) 3-attempt/2-retry behavior never
happens.  The claim's general bound does hold: a logical call performs
at most `max_retries + 1` physical attempts. -/
theorem retry_503_breaks_after_single_attempt :
    (makeRequestWithRetry oracle503 2 ⟨0, 0, 0, 0⟩).stats.totalRequests = 1 ∧
    (makeRequestWithRetry oracle503 2 ⟨0, 0, 0, 0⟩).stats.retryAttempts = 0 ∧
    (makeRequestWithRetry oracle503 2 ⟨0, 0, 0, 0⟩).stats.failedRequests = 1 ∧
    (makeRequestWithRetry oracle503 2 ⟨0, 0, 0, 0⟩).value = .obj [] ∧
    ∀ (oracle' : Nat → AttemptOutcome) (mr : Nat) (stats' : Stats),
      (makeRequestWithRetry oracle' mr stats').stats.totalRequests ≤
        stats'.totalRequests + (mr + 1) := by
  refine ⟨rfl, rfl, rfl, rfl, ?_⟩
  intro oracle' mr stats'
  exact goRetry_total_le oracle' mr (mr + 1) 0 stats' []

/-- C4: `make_request_with_retry` always returns a value, for every
behavior of the HTTP layer: the returned value is the payload projection
of a successful error-free body, and the empty dict in every other
case — no attempt outcome (HTTP error, connection error, timeout, bad
body, other exception) escapes as an exception. -/
theorem makeRequest_always_returns_value
    (oracle : Nat → AttemptOutcome) (mr : Nat) (stats : Stats) :
    (makeRequestWithRetry oracle mr stats).value = .obj [] ∨
    ∃ (i : Nat) (body : List (String × Json)), i ≤ mr ∧
      oracle i = .ok body ∧ pyGet body "error" = none ∧
      (makeRequestWithRetry oracle mr stats).value =
        (pyGet body "result").getD (.obj body) := by
  rcases goRetry_value_shape oracle mr (mr + 1) 0 stats [] with h | ⟨i, body, h1, h2, h3, h4, h5⟩
  · exact Or.inl h
  · exact Or.inr ⟨i, body, by omega, h3, h4, h5⟩

/-- C9: a 2xx body with neither an `error` key nor a `result` key is
classified as success (`successful_requests` is incremented) and is
returned whole: `result.get('result', result)` falls back to the entire
body. -/
theorem success_without_result_key_returns_body
    (oracle : Nat → AttemptOutcome) (mr : Nat) (stats : Stats)
    (body : List (String × Json))
    (h0 : oracle 0 = .ok body) (he : pyGet body "error" = none)
    (hr : pyGet body "result" = none) :
    (makeRequestWithRetry oracle mr stats).value = .obj body ∧
    (makeRequestWithRetry oracle mr stats).stats.successfulRequests =
      stats.successfulRequests + 1 := by
  constructor <;> simp [makeRequestWithRetry, goRetry, h0, he, hr]

/-- Witness for C9 at the `{"x": 1}` body oracle. -/
theorem success_without_result_key_returns_body_witness :
    (makeRequestWithRetry oracleBareBody 5 ⟨0, 0, 0, 0⟩).value = .obj [("x", .num 1)] ∧
    (makeRequestWithRetry oracleBareBody 5 ⟨0, 0, 0, 0⟩).stats.successfulRequests =
      (⟨0, 0, 0, 0⟩ : Stats).successfulRequests + 1 :=
  success_without_result_key_returns_body oracleBareBody 5 ⟨0, 0, 0, 0⟩
    [("x", .num 1)] rfl rfl rfl

/-- C6 counterexample: on the very first request of the session
(`total_requests` was 0), attempt 0 is performed with NO delay — the
delay trace of the call is `[(0, none)]` — contradicting the claim that
a delay is applied before every physical attempt including the session's
first. -/
theorem first_session_attempt_has_no_delay :
    (makeRequestWithRetry oracleOkEmpty 5 ⟨0, 0, 0, 0⟩).delays = [(0, none)] := rfl

/-- C6 (amended): every physical attempt except the very first request
of the session is preceded by a delay — the rate-limit delay for a
non-retry attempt, `2^n` plus jitter for retry attempt `n ≥ 1` — there
is one trace entry per physical attempt, and the retry counter grows by
one per retry delay. -/
theorem makeRequest_delay_policy
    (oracle : Nat → AttemptOutcome) (mr : Nat) (stats : Stats) :
    (∀ p ∈ (makeRequestWithRetry oracle mr stats).delays,
      DelaySpec stats.totalRequests p) ∧
    (makeRequestWithRetry oracle mr stats).stats.totalRequests =
      stats.totalRequests + (makeRequestWithRetry oracle mr stats).delays.length ∧
    (makeRequestWithRetry oracle mr stats).stats.retryAttempts =
      stats.retryAttempts +
        ((makeRequestWithRetry oracle mr stats).delays.filter fun p => 0 < p.1).length := by
  refine ⟨?_, ?_, ?_⟩
  · exact goRetry_delay_spec oracle mr stats.totalRequests (mr + 1) 0 stats []
      (by omega) (by simp)
  · have := goRetry_total_delays oracle mr (mr + 1) 0 stats []
    simpa [makeRequestWithRetry] using this
  · have := goRetry_retry_count oracle mr (mr + 1) 0 stats []
    simpa [makeRequestWithRetry] using this

/-- Witness for C6's amended claim: in the all-connection-error run the
entry of retry attempt 1 carries the backoff delay `2^1 + jitter`. -/
theorem makeRequest_delay_policy_witness :
    DelaySpec (0 : Nat) ((1 : Nat), some (Delay.backoff 1)) :=
  (makeRequest_delay_policy oracleConnErr 2 ⟨0, 0, 0, 0⟩).1
    (1, some (Delay.backoff 1)) (by decide)

/-! ## Helper lemmas: dedup and the dialogue pagination loop -/

/-- The dedup pass only ever adds identifiers to `seen_ids`. -/
theorem dedupBatch_seen_mono :
    ∀ (batch : List Rec) (seen : List Scalar) (v : Scalar),
      v ∈ seen → v ∈ (dedupBatch batch seen).2 := by
  intro batch
  induction batch with
  | nil => intro seen v hv; simpa [dedupBatch] using hv
  | cons msg rest ih =>
    intro seen v hv
    cases hid : pyGet msg "ID" with
    | none =>
      simp only [dedupBatch, hid]
      exact ih seen v hv
    | some w =>
      simp only [dedupBatch, hid]
      by_cases hc : w.truthy = true ∧ w ∉ seen
      · rw [if_pos hc]
        exact ih (w :: seen) v (List.mem_cons_of_mem _ hv)
      · rw [if_neg hc]
        exact ih seen v hv

/-- Every message the dedup pass retains carries a truthy identifier that
was not yet in `seen_ids` and is in the updated set. -/
theorem dedupBatch_retained :
    ∀ (batch : List Rec) (seen : List Scalar) (m : Rec),
      m ∈ (dedupBatch batch seen).1 →
      ∃ v : Scalar, pyGet m "ID" = some v ∧ v.truthy = true ∧ v ∉ seen ∧
        v ∈ (dedupBatch batch seen).2 := by
  intro batch
  induction batch with
  | nil => intro seen m hm; simp [dedupBatch] at hm
  | cons msg rest ih =>
    intro seen m hm
    cases hid : pyGet msg "ID" with
    | none =>
      simp only [dedupBatch, hid] at hm ⊢
      exact ih seen m hm
    | some w =>
      simp only [dedupBatch, hid] at hm ⊢
      by_cases hc : w.truthy = true ∧ w ∉ seen
      · rw [if_pos hc] at hm
        rw [if_pos hc]
        rcases List.mem_cons.mp hm with rfl | hm'
        · exact ⟨w, hid, hc.1, hc.2,
            dedupBatch_seen_mono rest (w :: seen) w (List.mem_cons_self _ _)⟩
        · rcases ih (w :: seen) m hm' with ⟨v, h1, h2, h3, h4⟩
          exact ⟨v, h1, h2, fun hv => h3 (List.mem_cons_of_mem _ hv), h4⟩
      · rw [if_neg hc] at hm
        rw [if_neg hc]
        exact ih seen m hm

/-- Within one page, the retained messages have pairwise distinct
identifiers. -/
theorem dedupBatch_pairwise :
    ∀ (batch : List Rec) (seen : List Scalar),
      (dedupBatch batch seen).1.Pairwise
        (fun a b => pyGet a "ID" ≠ pyGet b "ID") := by
  intro batch
  induction batch with
  | nil => intro seen; simp [dedupBatch]
  | cons msg rest ih =>
    intro seen
    cases hid : pyGet msg "ID" with
    | none =>
      simp only [dedupBatch, hid]
      exact ih seen
    | some w =>
      simp only [dedupBatch, hid]
      by_cases hc : w.truthy = true ∧ w ∉ seen
      · rw [if_pos hc]
        refine List.Pairwise.cons ?_ (ih (w :: seen))
        intro b hb
        rcases dedupBatch_retained rest (w :: seen) b hb with ⟨v, h1, _, h3, _⟩
        rw [hid, h1]
        intro hcontra
        apply h3
        have : w = v := Option.some.injEq w v ▸ hcontra
        rw [← this]
        exact List.mem_cons_self _ _
      · rw [if_neg hc]
        exact ih seen

/-- Every record the dialogue loop emits carries a truthy identifier not
in the `seen_ids` set the loop started from. -/
theorem goDialogues_ids_fresh (oracle : Nat → Option (List Rec)) :
    ∀ (fuel i p : Nat) (seen : List Scalar) (m : Rec),
      m ∈ (goDialogues oracle fuel i p seen).records →
      ∃ v : Scalar, pyGet m "ID" = some v ∧ v.truthy = true ∧ v ∉ seen := by
  intro fuel
  induction fuel with
  | zero => intro i p seen m hm; simp [goDialogues] at hm
  | succ n ih =>
    intro i p seen m hm
    cases ho : oracle i with
    | none => simp [goDialogues, ho] at hm
    | some batch =>
      simp only [goDialogues, ho] at hm
      by_cases hbe : batch.isEmpty = true
      · rw [if_pos hbe] at hm; simp at hm
      · rw [if_neg hbe] at hm
        by_cases hne : (dedupBatch batch seen).1.isEmpty = true
        · rw [if_pos hne] at hm; simp at hm
        · rw [if_neg hne] at hm
          by_cases hpc : p + 1 > 100
          · rw [if_pos hpc] at hm
            rcases dedupBatch_retained batch seen m hm with ⟨v, h1, h2, h3, _⟩
            exact ⟨v, h1, h2, h3⟩
          · rw [if_neg hpc] at hm
            rcases List.mem_append.mp hm with hm' | hm'
            · rcases dedupBatch_retained batch seen m hm' with ⟨v, h1, h2, h3, _⟩
              exact ⟨v, h1, h2, h3⟩
            · rcases ih (i + 1) (p + 1) (dedupBatch batch seen).2 m hm' with ⟨v, h1, h2, h3⟩
              exact ⟨v, h1, h2, fun hv => h3 (dedupBatch_seen_mono batch seen v hv)⟩

/-- The records the dialogue loop emits have pairwise distinct
identifiers. -/
theorem goDialogues_pairwise (oracle : Nat → Option (List Rec)) :
    ∀ (fuel i p : Nat) (seen : List Scalar),
      (goDialogues oracle fuel i p seen).records.Pairwise
        (fun a b => pyGet a "ID" ≠ pyGet b "ID") := by
  intro fuel
  induction fuel with
  | zero => intro i p seen; simp [goDialogues]
  | succ n ih =>
    intro i p seen
    cases ho : oracle i with
    | none => simp [goDialogues, ho]
    | some batch =>
      simp only [goDialogues, ho]
      by_cases hbe : batch.isEmpty = true
      · simp [hbe]
      · rw [if_neg hbe]
        by_cases hne : (dedupBatch batch seen).1.isEmpty = true
        · simp [hne]
        · rw [if_neg hne]
          by_cases hpc : p + 1 > 100
          · rw [if_pos hpc]
            exact dedupBatch_pairwise batch seen
          · rw [if_neg hpc]
            refine List.pairwise_append.mpr
              ⟨dedupBatch_pairwise batch seen, ih (i + 1) (p + 1) _, ?_⟩
            intro a ha b hb
            rcases dedupBatch_retained batch seen a ha with ⟨v, ha1, _, _, ha4⟩
            rcases goDialogues_ids_fresh oracle n (i + 1) (p + 1) _ b hb with ⟨w, hb1, _, hb3⟩
            rw [ha1, hb1]
            intro hcontra
            apply hb3
            have : v = w := Option.some.injEq v w ▸ hcontra
            rw [← this]
            exact ha4

/-- The dialogue loop never exceeds `101 - pageCount` further requests,
and with enough fuel it reaches one of its own exit conditions. -/
theorem goDialogues_bound (oracle : Nat → Option (List Rec)) :
    ∀ (fuel p i : Nat) (seen : List Scalar), p ≤ 100 →
      (goDialogues oracle fuel i p seen).requests ≤ 101 - p ∧
      (101 - p ≤ fuel → (goDialogues oracle fuel i p seen).finished = true) := by
  intro fuel
  induction fuel with
  | zero =>
    intro p i seen hp
    refine ⟨by simp [goDialogues], fun h => absurd h (by omega)⟩
  | succ n ih =>
    intro p i seen hp
    cases ho : oracle i with
    | none =>
      simp only [goDialogues, ho]
      exact ⟨by omega, fun _ => trivial⟩
    | some batch =>
      simp only [goDialogues, ho]
      by_cases hbe : batch.isEmpty = true
      · rw [if_pos hbe]
        exact ⟨by simp; omega, fun _ => by simp⟩
      · rw [if_neg hbe]
        by_cases hne : (dedupBatch batch seen).1.isEmpty = true
        · rw [if_pos hne]
          exact ⟨by simp; omega, fun _ => by simp⟩
        · rw [if_neg hne]
          by_cases hpc : p + 1 > 100
          · rw [if_pos hpc]
            exact ⟨by simp; omega, fun _ => by simp⟩
          · rw [if_neg hpc]
            rcases ih (p + 1) (i + 1) (dedupBatch batch seen).2 (by omega) with ⟨h1, h2⟩
            refine ⟨by simp; omega, fun hf => ?_⟩
            simpa using h2 (by omega)

/-- With positive fuel the dialogue loop performs at least one request. -/
theorem goDialogues_requests_pos (oracle : Nat → Option (List Rec)) :
    ∀ (fuel i p : Nat) (seen : List Scalar),
      1 ≤ (goDialogues oracle (fuel + 1) i p seen).requests := by
  intro fuel i p seen
  cases ho : oracle i with
  | none => simp [goDialogues, ho]
  | some batch =>
    simp only [goDialogues, ho]
    by_cases hbe : batch.isEmpty = true
    · simp [hbe]
    · rw [if_neg hbe]
      by_cases hne : (dedupBatch batch seen).1.isEmpty = true
      · simp [hne]
      · rw [if_neg hne]
        by_cases hpc : p + 1 > 100
        · simp [hpc]
        · rw [if_neg hpc]; simp

/-! ## Claims on the pagination loops -/

/-- A dialogue-page oracle whose first page is short (1 record < 50) yet
followed by a second non-empty page. -/
def dlgShortOracle : Nat → Option (List Rec)
  | 0 => some [[("ID", .str "1")]]
  | 1 => some [[("ID", .str "2")]]
  | _ => none

/-- C2: across all pages of one `get_deal_dialogues` extraction, no two
returned records share an `'ID'` value — records whose identifier was
already seen are dropped, so the emitted identifiers are pairwise
distinct. -/
theorem dialogues_ids_nodup (oracle : Nat → Option (List Rec)) (fuel : Nat) :
    (getDealDialogues oracle fuel).records.Pairwise
      (fun a b => pyGet a "ID" ≠ pyGet b "ID") :=
  goDialogues_pairwise oracle fuel 0 0 []

/-- C3 counterexample: in `get_deal_dialogues`, after a first page of
length 1 (< 50) the loop issues further requests — this run performs 3
requests and even collects the second page's record — contradicting the
claim that every extraction loop stops after a short page with no
further request. -/
theorem dialogues_request_after_short_page :
    (getDealDialogues dlgShortOracle 10).requests = 3 ∧
    (getDealDialogues dlgShortOracle 10).records =
      [[("ID", .str "1")], [("ID", .str "2")]] := by
  constructor <;> rfl

/-- C3 (amended): only `get_all_deals` stops on a short page — a
non-empty batch of length < 50 ends that loop with no further request;
`get_deal_dialogues` has no short-page check: after a short page that
contributed new messages (and below the page limit) it issues at least
one more request. -/
theorem short_page_stops_only_get_all_deals :
    (∀ (oracle : Nat → Json) (i fuel : Nat) (batch : List Json),
      oracle i = .arr batch → batch ≠ [] → batch.length < 50 →
      goAllDeals oracle (fuel + 1) i =
        { records := batch, requests := 1, finished := true }) ∧
    (∀ (oracle : Nat → Option (List Rec)) (i fuel p : Nat) (seen : List Scalar)
        (batch : List Rec),
      oracle i = some batch → batch.length < 50 →
      (dedupBatch batch seen).1 ≠ [] → p ≤ 99 →
      2 ≤ (goDialogues oracle (fuel + 1 + 1) i p seen).requests) := by
  constructor
  · intro oracle i fuel batch h1 h2 h3
    simp only [goAllDeals, h1]
    rw [if_neg (by simpa using h2), if_pos h3]
  · intro oracle i fuel p seen batch h1 h2 h3 h4
    have hbne : batch ≠ [] := by
      intro hb
      apply h3
      rw [hb]
      rfl
    have hpos := goDialogues_requests_pos oracle fuel (i + 1) (p + 1) (dedupBatch batch seen).2
    obtain ⟨k, hk⟩ : ∃ k, fuel + 1 = k := ⟨_, rfl⟩
    rw [hk] at hpos ⊢
    simp only [goDialogues, h1]
    rw [if_neg (by simpa using hbne), if_neg (by simpa using h3),
      if_neg (by omega : ¬ p + 1 > 100)]
    simp only
    omega

/-- Witness for C3's amended claim: a short page ends `get_all_deals`
after exactly one request, while the same-shape dialogue run issues a
second request. -/
theorem short_page_stops_only_get_all_deals_witness :
    goAllDeals (fun _ => .arr [.num 7]) (9 + 1) 0 =
      { records := [.num 7], requests := 1, finished := true } ∧
    2 ≤ (goDialogues dlgShortOracle (8 + 2) 0 0 []).requests :=
  ⟨short_page_stops_only_get_all_deals.1 (fun _ => .arr [.num 7]) 0 9 [.num 7]
      rfl (List.cons_ne_nil _ _) (by decide),
    short_page_stops_only_get_all_deals.2 dlgShortOracle 0 8 0 []
      [[("ID", .str "1")]] rfl (by decide) (by decide) (by decide)⟩

/-- A deals oracle that forever returns a full page of 50 records. -/
def dealsFullOracle : Nat → Json := fun _ => .arr (List.replicate 50 (.num 0))

/-- C5 counterexample: `get_all_deals` enforces no absolute page bound —
on an API that forever returns full 50-record pages, 150 loop iterations
issue 150 requests (> 100) and the loop has still not terminated. -/
theorem get_all_deals_unbounded_on_full_pages :
    (getAllDeals dealsFullOracle 150).requests = 150 ∧
    (getAllDeals dealsFullOracle 150).finished = false := by
  have key : ∀ fuel i,
      (goAllDeals dealsFullOracle fuel i).requests = fuel ∧
      (goAllDeals dealsFullOracle fuel i).finished = false := by
    intro fuel
    induction fuel with
    | zero => intro i; exact ⟨rfl, rfl⟩
    | succ n ih => intro i; simp [goAllDeals, dealsFullOracle, List.isEmpty, ih (i + 1)]
  exact key 150 0

/-- C5 (amended): only `get_deal_dialogues` enforces an absolute page
bound — it performs at most 101 requests per extraction, and with enough
fuel the loop always reaches one of its own exit conditions (hitting the
bound stops extraction, keeping the records collected so far, rather
than failing); `get_all_deals` has no such bound. -/
theorem dialogues_page_limit (oracle : Nat → Option (List Rec)) (fuel : Nat) :
    (getDealDialogues oracle fuel).requests ≤ 101 ∧
    (101 ≤ fuel → (getDealDialogues oracle fuel).finished = true) := by
  have h := goDialogues_bound oracle fuel 0 0 [] (by omega)
  exact ⟨by simpa using h.1, fun hf => h.2 (by omega)⟩

/-- Witness for C5's amended claim at a concrete oracle and fuel 101. -/
theorem dialogues_page_limit_witness :
    (getDealDialogues (fun _ => none) 101).requests ≤ 101 ∧
    (getDealDialogues (fun _ => none) 101).finished = true :=
  ⟨(dialogues_page_limit (fun _ => none) 101).1,
    (dialogues_page_limit (fun _ => none) 101).2 (le_refl _)⟩

/-- C10: every record returned by `get_deal_dialogues` carries a present,
truthy `'ID'` value — records with a missing or falsy identifier are
never emitted (they are dropped by the `if msg_id` guard even when they
are not duplicates). -/
theorem dialogues_ids_present_truthy (oracle : Nat → Option (List Rec))
    (fuel : Nat) (m : Rec) (hm : m ∈ (getDealDialogues oracle fuel).records) :
    ∃ v : Scalar, pyGet m "ID" = some v ∧ v.truthy = true := by
  rcases goDialogues_ids_fresh oracle fuel 0 0 [] m hm with ⟨v, h1, h2, _⟩
  exact ⟨v, h1, h2⟩

/-- Witness for C10 at a record of the `dlgShortOracle` run. -/
theorem dialogues_ids_present_truthy_witness :
    ∃ v : Scalar, pyGet [("ID", Scalar.str "1")] "ID" = some v ∧ v.truthy = true :=
  dialogues_ids_present_truthy dlgShortOracle 10 [("ID", Scalar.str "1")] (by decide)

/-! ## Helper lemmas: message cleaning -/

/-- A successful prefix test against a cons pattern pins down the first
character of the text. -/
theorem isPrefixOf_head (a c : Char) (p rest : List Char)
    (h : (a :: p).isPrefixOf (c :: rest) = true) : c = a := by
  simp [List.isPrefixOf] at h
  exact h.1.symm

/-- A text without `'&'` contains no `'&nbsp;'` occurrence, so the
replacement pass leaves it unchanged. -/
theorem removeNbspAux_no_amp : ∀ (fuel : Nat) (cs : List Char), '&' ∉ cs →
    removeNbspAux fuel cs = cs := by
  intro fuel
  induction fuel with
  | zero => intro cs _; rfl
  | succ n ih =>
    intro cs h
    cases cs with
    | nil => rfl
    | cons c rest =>
      have hc : c ≠ '&' := by
        intro hceq; subst hceq; exact h (List.mem_cons_self _ _)
      have hrest : '&' ∉ rest := fun hr => h (List.mem_cons_of_mem _ hr)
      simp only [removeNbspAux]
      rw [if_neg (show ¬ (nbspTag.isPrefixOf (c :: rest) = true) from
        fun hp => hc (isPrefixOf_head '&' c _ _ hp)), ih rest hrest]

/-- On a text of the shape `x ++ '&nbsp;' ++ w` with no other `'&'`, the
replacement pass removes exactly the explicit `'&nbsp;'`. -/
theorem removeNbspAux_boundary : ∀ (x : List Char) (fuel : Nat) (w : List Char),
    '&' ∉ x → '&' ∉ w → x.length + 6 + w.length ≤ fuel →
    removeNbspAux fuel (x ++ (nbspTag ++ w)) = x ++ w := by
  intro x
  induction x with
  | nil =>
    intro fuel w _ hw hf
    cases fuel with
    | zero => exfalso; simp at hf
    | succ f =>
      show removeNbspAux (f + 1) (nbspTag ++ w) = w
      simp only [nbspTag, List.cons_append, List.nil_append] at hf ⊢
      simp only [removeNbspAux]
      rw [if_pos (by simp [nbspTag, List.isPrefixOf])]
      show removeNbspAux f w = w
      exact removeNbspAux_no_amp f w hw
  | cons c x' ih =>
    intro fuel w hx hw hf
    cases fuel with
    | zero => exfalso; simp at hf
    | succ f =>
      have hc : c ≠ '&' := by
        intro hceq; subst hceq; exact hx (List.mem_cons_self _ _)
      have hx' : '&' ∉ x' := fun hr => hx (List.mem_cons_of_mem _ hr)
      show removeNbspAux (f + 1) (c :: (x' ++ (nbspTag ++ w))) = c :: (x' ++ w)
      simp only [removeNbspAux]
      rw [if_neg (show ¬ (nbspTag.isPrefixOf (c :: (x' ++ (nbspTag ++ w))) = true) from
        fun hp => hc (isPrefixOf_head '&' c _ _ hp))]
      rw [ih f w hx' hw (by simp at hf ⊢; omega)]

/-- The lazy close scan walks through a bracket-free, newline-free span
and succeeds at the first explicit `'[/img]'`. -/
theorem findImgClose_through : ∀ (u w : List Char), '\n' ∉ u → '[' ∉ u →
    findImgClose (u ++ (imgClose ++ w)) = some w := by
  intro u
  induction u with
  | nil =>
    intro w _ _
    show findImgClose (imgClose ++ w) = some w
    simp only [imgClose, List.cons_append, List.nil_append]
    simp only [findImgClose]
    rw [if_pos (by simp [imgClose, List.isPrefixOf])]
    rfl
  | cons c u' ih =>
    intro w hn hb
    have hc1 : c ≠ '[' := by
      intro hceq; subst hceq; exact hb (List.mem_cons_self _ _)
    have hc2 : c ≠ '\n' := by
      intro hceq; subst hceq; exact hn (List.mem_cons_self _ _)
    have hn' : '\n' ∉ u' := fun hr => hn (List.mem_cons_of_mem _ hr)
    have hb' : '[' ∉ u' := fun hr => hb (List.mem_cons_of_mem _ hr)
    show findImgClose (c :: (u' ++ (imgClose ++ w))) = some w
    simp only [findImgClose]
    rw [if_neg (show ¬ (imgClose.isPrefixOf (c :: (u' ++ (imgClose ++ w))) = true) from
      fun hp => hc1 (isPrefixOf_head '[' c _ _ hp)), if_neg hc2]
    exact ih w hn' hb'

/-- No image-tag match can start at a character other than `'['`. -/
theorem matchImgAt_not_bracket (c : Char) (rest : List Char) (hc : c ≠ '[') :
    matchImgAt (c :: rest) = none := by
  simp only [matchImgAt]
  rw [if_neg (show ¬ (imgOpen.isPrefixOf (c :: rest) = true) from
    fun hp => hc (isPrefixOf_head '[' c _ _ hp))]

/-- A text without `'['` contains no image tag, so the regex removal
pass leaves it unchanged. -/
theorem stripImgAux_no_bracket : ∀ (fuel : Nat) (cs : List Char), '[' ∉ cs →
    stripImgAux fuel cs = cs := by
  intro fuel
  induction fuel with
  | zero => intro cs _; rfl
  | succ n ih =>
    intro cs h
    cases cs with
    | nil => rfl
    | cons c rest =>
      have hc : c ≠ '[' := by
        intro hceq; subst hceq; exact h (List.mem_cons_self _ _)
      have hrest : '[' ∉ rest := fun hr => h (List.mem_cons_of_mem _ hr)
      simp only [stripImgAux, matchImgAt_not_bracket c rest hc]
      rw [ih rest hrest]

/-- The regex removal pass deletes a leading `[img]…[/img]` span whose
payload has no newline and no bracket, and leaves a bracket-free tail
untouched. -/
theorem stripImgAux_wrapper (fuel : Nat) (u w : List Char)
    (hn : '\n' ∉ u) (hu : '[' ∉ u) (hw : '[' ∉ w) :
    stripImgAux (fuel + 1) ((imgOpen ++ u) ++ (imgClose ++ w)) = w := by
  have hm : matchImgAt ((imgOpen ++ u) ++ (imgClose ++ w)) = some w := by
    simp only [matchImgAt]
    rw [if_pos (List.isPrefixOf_iff_prefix.mpr
      (by rw [List.append_assoc]; exact List.prefix_append _ _))]
    have hdrop : (((imgOpen ++ u) ++ (imgClose ++ w)).drop 5) = u ++ (imgClose ++ w) := by
      simp [imgOpen, List.cons_append, List.nil_append]
    rw [hdrop]
    exact findImgClose_through u w hn hu
  simp only [imgOpen, List.cons_append, List.nil_append] at hm ⊢
  simp only [stripImgAux]
  rw [hm]
  exact stripImgAux_no_bracket fuel w hw

/-! ## Claims on message cleaning -/

/-- C8: a message whose text contains the system marker
`'=== SYSTEM WZ ==='` anywhere is discarded whole, whatever surrounds the
marker. -/
theorem system_marker_discards_whole_message (text : List Char)
    (h : hasSub sysTag text = true) : cleanMessage text = none := by
  simp [cleanMessage, h]

/-- Witness for C8 at the spec example `'=== SYSTEM WZ === anything'`. -/
theorem system_marker_discards_whole_message_witness :
    cleanMessage "=== SYSTEM WZ === anything".toList = none :=
  system_marker_discards_whole_message _ (by decide)

/-- C7 counterexample: a message containing a `[url=…]…[/url]` wrapper is
discarded whole (`none`), not stripped and surfaced — here stripping
would have left `'a Hi'`/`'Hi'`, yet the message is dropped,
contradicting the claim that markup-wrapped messages are only stripped
unless nothing remains. -/
theorem url_message_discarded_not_stripped :
    cleanMessage "[url=http://x]a[/url] Hi".toList = none := by decide

/-- C7 (amended): `[img]…[/img]` wrappers and the `'&nbsp;'` artifact are
stripped and the remainder is surfaced trimmed (in particular the spec
example yields `"Hello"`), and a message is discarded exactly when it
contains `'[url='` or the system marker — messages with `[url=` link
wrappers are dropped whole, never stripped, and a message is never
discarded merely because stripping leaves nothing. -/
theorem img_wrapper_stripped_url_discarded :
    (∀ (u w : List Char),
      hasSub urlTag ((imgOpen ++ u) ++ imgClose ++ (nbspTag ++ w)) = false →
      hasSub sysTag ((imgOpen ++ u) ++ imgClose ++ (nbspTag ++ w)) = false →
      '&' ∉ u → '&' ∉ w → '\n' ∉ u → '[' ∉ u → '[' ∉ w →
      cleanMessage ((imgOpen ++ u) ++ imgClose ++ (nbspTag ++ w)) = some (pyStrip w)) ∧
    (∀ text : List Char,
      cleanMessage text = none ↔ (hasSub urlTag text = true ∨ hasSub sysTag text = true)) ∧
    cleanMessage "[img]http://x/a.png[/img]&nbsp;  Hello".toList = some "Hello".toList := by
  refine ⟨?_, ?_, by decide⟩
  · intro u w hurl hsys hau haw hnu hbu hbw
    have hx : '&' ∉ (imgOpen ++ u) ++ imgClose := by
      simp [imgOpen, imgClose]
      exact hau
    have h1 : removeNbsp (((imgOpen ++ u) ++ imgClose) ++ (nbspTag ++ w)) =
        ((imgOpen ++ u) ++ imgClose) ++ w := by
      unfold removeNbsp
      exact removeNbspAux_boundary _ _ w hx haw (by simp [nbspTag]; omega)
    have h2 : stripImg (((imgOpen ++ u) ++ imgClose) ++ w) = w := by
      rw [List.append_assoc (imgOpen ++ u) imgClose w]
      obtain ⟨f, hf⟩ : ∃ f, ((imgOpen ++ u) ++ (imgClose ++ w)).length = f + 1 :=
        ⟨4 + u.length + 6 + w.length, by simp [imgOpen, imgClose]; omega⟩
      unfold stripImg
      rw [hf]
      exact stripImgAux_wrapper f u w hnu hbu hbw
    simp only [cleanMessage, hurl, hsys, Bool.or_self]
    rw [if_neg (by simp)]
    rw [h1, h2]
  · intro text
    constructor
    · intro h
      by_cases hcond : (hasSub urlTag text || hasSub sysTag text) = true
      · exact Bool.or_eq_true _ _ |>.mp hcond
      · exfalso
        simp [cleanMessage, hcond] at h
    · intro h
      have hcond : (hasSub urlTag text || hasSub sysTag text) = true :=
        Bool.or_eq_true _ _ |>.mpr h
      simp [cleanMessage, hcond]

/-- Witness for C7's amended claim at the spec example, as an instance of
its general wrapper shape. -/
theorem img_wrapper_stripped_url_discarded_witness :
    cleanMessage ((imgOpen ++ "http://x/a.png".toList) ++ imgClose ++
        (nbspTag ++ "  Hello".toList)) = some (pyStrip "  Hello".toList) :=
  img_wrapper_stripped_url_discarded.1 "http://x/a.png".toList "  Hello".toList
    (by decide) (by decide) (by decide) (by decide) (by decide) (by decide) (by decide)

end Dialogs
